import Mathlib

/-!
Formal verification of the issue-driven git/PR release-automation scripts of
this repository (`scripts/git-automation.ts`, `scripts/git-ops/*.ts`,
`scripts/git/git-pr.ts`).

The TypeScript functions are shallowly embedded as executable Lean
definitions.  Strings are modelled through their character lists; the
external-process environment (exit statuses and captured command output) is
modelled as explicit inputs; `async` loops with sleeps are modelled as
fuel-indexed recursions that additionally count the delays they perform.
ASCII-level character operations (`toLowerCase`, `trim`, digit and
whitespace classes) are embedded directly; the Unicode `NFKD` normalization
step of the slugifier is kept abstract as a function parameter, with the
standard fact that NFKD fixes ASCII strings stated as a hypothesis where a
proof needs it.
-/

/-! ## Character and string primitives -/

/-- JavaScript-style whitespace test restricted to the ASCII whitespace
characters that actually occur in the scripts' data (space, tab, CR, LF);
mirrors the character class used by `trim()` and `\s`. -/
def is_ws (c : Char) : Bool :=
  c == ' ' || c == '\t' || c == '\r' || c == '\n'

/-- ASCII digit test, the `\d` class of the scripts' regexes (`/u` flag,
so `\d` is exactly `[0-9]`). -/
def is_digit (c : Char) : Bool :=
  48 ≤ c.toNat && c.toNat ≤ 57

/-- Lower-casing of a string, character by character (`toLowerCase()` on the
ASCII data the scripts compare). -/
def lower_string (s : String) : String :=
  ⟨s.data.map Char.toLower⟩

/-- Drop the maximal all-whitespace suffix of a character list. -/
def drop_trailing_ws : List Char → List Char
  | [] => []
  | c :: t =>
    match drop_trailing_ws t with
    | [] => if is_ws c then [] else [c]
    | t' => c :: t'

/-- `trim()`: remove leading and trailing whitespace. -/
def trim_chars (l : List Char) : List Char :=
  drop_trailing_ws (l.dropWhile is_ws)

/-- String-level `trim()`. -/
def trim_string (s : String) : String :=
  ⟨trim_chars s.data⟩

/-- `haystack.includes(needle)`. -/
def string_includes (haystack needle : String) : Bool :=
  decide (needle.data <:+: haystack.data)

/-! ## Conflict detection — `scripts/git/git-pr.ts`

`has_conflicts` parses the JSON produced by `gh pr view --json
mergeable,mergeStateStatus,state`; a failed parse yields `false`.  The
parsed record is modelled by `PrProperties`, with `none` standing for an
absent or `null` field (the source coalesces `null` to `undefined`). -/

/-- The three PR fields inspected by `check_conflict_conditions`;
`none` = field absent or `null` in the JSON record. -/
structure PrProperties where
  mergeable : Option Bool
  mergeStateStatus : Option String
  state : Option String
deriving DecidableEq, Repr

/-- `is_mergeable_false` from `git-pr.ts`. -/
def is_mergeable_false (mergeable : Option Bool) : Bool :=
  mergeable == some false

/-- `is_merge_state_blocked` from `git-pr.ts` (`MERGE_STATE_DIRTY` /
`MERGE_STATE_BLOCKED`). -/
def is_merge_state_blocked (merge_state_status : Option String) : Bool :=
  merge_state_status == some "dirty" || merge_state_status == some "blocked"

/-- `is_pr_state_invalid` from `git-pr.ts` (`PR_STATE_CLOSED` /
`PR_STATE_DRAFT`). -/
def is_pr_state_invalid (state : Option String) : Bool :=
  state == some "closed" || state == some "draft"

/-- `check_conflict_conditions` from `git-pr.ts`: true when the PR is
explicitly unmergeable, when the merge state is dirty/blocked, and also —
this is the final `return !is_pr_state_invalid(state)` — whenever the PR
state is *not* closed/draft. -/
def check_conflict_conditions (is_mergeable : Option Bool)
    (merge_state_status : Option String) (state : Option String) : Bool :=
  if is_mergeable_false is_mergeable then true
  else if is_merge_state_blocked merge_state_status then true
  else !(is_pr_state_invalid state)

/-- `has_conflicts` from `git-pr.ts`, over the result of `parse_pr_info`
(`none` = JSON parse failure, which yields `false`). -/
def has_conflicts (parsed : Option PrProperties) : Bool :=
  match parsed with
  | none => false
  | some p => check_conflict_conditions p.mergeable p.mergeStateStatus p.state

/-- The conflict condition as the specification words it: conflict exactly
when `mergeable` is explicitly false or `mergeStateStatus` is
`dirty`/`blocked`.  Stated separately so it can be compared with the
source's `check_conflict_conditions`. -/
def spec_conflict_condition (mergeable : Option Bool)
    (merge_state_status : Option String) : Bool :=
  mergeable == some false ||
    merge_state_status == some "dirty" || merge_state_status == some "blocked"

/-- C1: the claim fails on the code.  For the successfully parsed record
`mergeable = true`, `mergeStateStatus = "clean"`, `state = "OPEN"` (a
perfectly healthy open PR), the specification's condition is false, yet
`has_conflicts` / `check_conflict_conditions` flags a conflict, because the
final branch returns `true` whenever the state is not closed/draft. -/
theorem c1_conflict_detection_code_bug :
    has_conflicts (some ⟨some true, some "clean", some "OPEN"⟩) = true ∧
    spec_conflict_condition (some true) (some "clean") = false := by
  decide

/-! ## Retry-Polling Engine — `scripts/git-ops/retry-helpers.ts`

`retry_with_status` drives a step function for at most `max_attempts`
attempts.  The step is modelled as a pure function of the 1-based attempt
counter and `max_attempts` that either throws (`Except.error`) or returns a
`RetryStepResult`.  The embedding additionally counts the `wait_for`
delays the loop performs, so that delay behaviour is statable. -/

/-- `RetryDetails` from `retry-helpers.ts`. -/
structure RetryDetails where
  message : String
  raw_output : Option String
deriving DecidableEq, Repr

/-- `RetryStepResult` from `retry-helpers.ts`. -/
inductive RetryStepResult (T : Type) where
  | success (value : T) (details : Option RetryDetails)
  | retry (details : Option RetryDetails)
deriving DecidableEq, Repr

/-- `format_failure_message` from `scripts/git-ops/error-utilities.ts`. -/
def format_failure_message (summary : String) (details : Option String) : String :=
  match details with
  | none => summary
  | some d =>
    let trimmed := trim_string d
    if trimmed = "" then summary else summary ++ "\n" ++ trimmed

/-- `extract_retry_message` from `retry-helpers.ts`. -/
def extract_retry_message : Option RetryDetails → Option String
  | none => none
  | some d => if trim_string d.message = "" then d.raw_output else some d.message

/-- Result of a retry loop: the returned value or the thrown error message,
together with the number of fixed delays the loop slept through. -/
inductive RetryResult (T : Type) where
  | ok (value : T) (delays : Nat)
  | err (message : String) (delays : Nat)
deriving DecidableEq, Repr

/-- The `for` loop of `retry_with_status`, indexed by the number of
remaining attempts (`remaining = max_attempts - attempt + 1`).  Each
iteration runs `process_retry_attempt`: a thrown step error propagates; a
`success` returns the value; a `retry` on a non-final attempt sleeps once
and continues with the merged details; a `retry` on the final attempt
throws the `build_retry_failure_error` message without sleeping. -/
def retry_go {T : Type} (label : String)
    (execute : Nat → Nat → Except String (RetryStepResult T))
    (max_attempts : Nat) :
    Nat → Nat → Option String → Nat → RetryResult T
  | 0, _, last, delays =>
    .err (format_failure_message (label ++ " failed.") last) delays
  | remaining + 1, attempt, last, delays =>
    match execute attempt max_attempts with
    | .error e => .err e delays
    | .ok (.success v _) => .ok v delays
    | .ok (.retry d) =>
      let next := match extract_retry_message d with
        | some m => some m
        | none => last
      if attempt < max_attempts then
        retry_go label execute max_attempts remaining (attempt + 1) next (delays + 1)
      else
        .err (format_failure_message (label ++ " failed.") next) delays

/-- `retry_with_status` from `retry-helpers.ts` (attempts are 1-based). -/
def retry_with_status {T : Type} (label : String)
    (execute : Nat → Nat → Except String (RetryStepResult T))
    (max_attempts : Nat) : RetryResult T :=
  retry_go label execute max_attempts max_attempts 1 none 0

/-! ## CI-check polling — `watchPullRequestChecks`, `scripts/git-automation.ts`

The polling loop around `gh pr checks --watch`.  The environment is
modelled by a step function giving, for each 1-based attempt, the exit
status of the watch command and the combined trimmed output subsequently
fetched by `fetchPrChecksOutput`. -/

/-- One attempt's view of the external commands: exit status of
`gh pr checks --watch` and the combined output of `gh pr checks`. -/
structure WatchStep where
  watch_status : Int
  checks_output : String
deriving DecidableEq, Repr

/-- `isNoChecksReportedMessage` from `git-automation.ts`. -/
def isNoChecksReportedMessage (output : String) : Bool :=
  string_includes (lower_string output) "no checks reported"

/-- The `AutomationError` message thrown by `watchPullRequestChecks`. -/
def watch_error_message (output : String) : String :=
  "Waiting for status checks failed." ++
    (if output.length > 0 then "\n" ++ output else "")

/-- Outcome of the watch loop: completion or thrown error, with the
number of attempts performed and of delays slept. -/
inductive WatchResult where
  | ok (attempts : Nat) (delays : Nat)
  | err (message : String) (attempts : Nat) (delays : Nat)
deriving DecidableEq, Repr

/-- The `for` loop of `watchPullRequestChecks`: a zero watch status
completes; otherwise a benign "no checks reported" output retries after a
delay — except on the final attempt, where it degrades to completion
("continuing anyway"); any other output throws immediately. -/
def watch_go (step : Nat → WatchStep) (max_attempts : Nat) :
    Nat → Nat → Nat → WatchResult
  | 0, attempt, delays => .ok (attempt - 1) delays
  | remaining + 1, attempt, delays =>
    let s := step attempt
    if s.watch_status == 0 then .ok attempt delays
    else if isNoChecksReportedMessage s.checks_output then
      if attempt < max_attempts then
        watch_go step max_attempts remaining (attempt + 1) (delays + 1)
      else .ok attempt delays
    else .err (watch_error_message s.checks_output) attempt delays

/-- `watchPullRequestChecks` from `git-automation.ts`
(`maxAttempts = 5`, fixed `retryDelayMs`). -/
def watchPullRequestChecks (step : Nat → WatchStep) : WatchResult :=
  watch_go step 5 5 1 0

/-- C3: driving `retry_with_status` with a step that retries on attempts
1–4 and succeeds with `v` on attempt 5 (with `max_attempts = 5`) returns
`v` after exactly 4 fixed delays; and a `success` outcome on the first
attempt terminates the loop immediately with no delay at all. -/
theorem c3_retry_loop_delay_count :
    (∀ (T : Type) (label : String) (v : T)
       (execute : Nat → Nat → Except String (RetryStepResult T)),
       (∀ a, 1 ≤ a → a ≤ 4 → ∃ d, execute a 5 = .ok (.retry d)) →
       (∃ d, execute 5 5 = .ok (.success v d)) →
       retry_with_status label execute 5 = .ok v 4)
    ∧ (∀ (T : Type) (label : String) (v : T) (d : Option RetryDetails)
       (execute : Nat → Nat → Except String (RetryStepResult T))
       (max_attempts : Nat),
       1 ≤ max_attempts → execute 1 max_attempts = .ok (.success v d) →
       retry_with_status label execute max_attempts = .ok v 0) := by
  have hstep : ∀ (T : Type) (label : String)
      (execute : Nat → Nat → Except String (RetryStepResult T))
      (remaining attempt : Nat) (last : Option String) (delays : Nat)
      (d : Option RetryDetails),
      execute attempt 5 = .ok (.retry d) → attempt < 5 →
      retry_go label execute 5 (remaining + 1) attempt last delays =
        retry_go label execute 5 remaining (attempt + 1)
          (match extract_retry_message d with
            | some m => some m
            | none => last) (delays + 1) := by
    intro T label execute remaining attempt last delays d hex hlt
    simp only [retry_go, hex, if_pos hlt]
  constructor
  · intro T label v execute hretry hsucc
    obtain ⟨d1, h1⟩ := hretry 1 (by omega) (by omega)
    obtain ⟨d2, h2⟩ := hretry 2 (by omega) (by omega)
    obtain ⟨d3, h3⟩ := hretry 3 (by omega) (by omega)
    obtain ⟨d4, h4⟩ := hretry 4 (by omega) (by omega)
    obtain ⟨d5, h5⟩ := hsucc
    show retry_go label execute 5 (4 + 1) 1 none 0 = .ok v 4
    rw [hstep T label execute 4 1 none 0 d1 h1 (by omega)]
    rw [hstep T label execute 3 2 _ 1 d2 h2 (by omega)]
    rw [hstep T label execute 2 3 _ 2 d3 h3 (by omega)]
    rw [hstep T label execute 1 4 _ 3 d4 h4 (by omega)]
    simp only [retry_go, h5]
  · intro T label v d execute max_attempts hmax hex
    obtain ⟨k, hk⟩ : ∃ k, max_attempts = k + 1 := ⟨max_attempts - 1, by omega⟩
    subst hk
    show retry_go label execute (k + 1) (k + 1) 1 none 0 = .ok v 0
    simp only [retry_go, hex]

/-- Witness for `c3_retry_loop_delay_count` at a concrete step function. -/
def c3_execute_example : Nat → Nat → Except String (RetryStepResult Nat) :=
  fun attempt _ =>
    if attempt < 5 then .ok (.retry none) else .ok (.success 42 none)

theorem c3_retry_loop_delay_count_witness :
    retry_with_status "Checks" c3_execute_example 5 = .ok 42 4 ∧
    retry_with_status "Report"
      (fun _ _ => (.ok (.success 7 none) : Except String (RetryStepResult Nat))) 3 =
      .ok 7 0 := by
  constructor
  · exact c3_retry_loop_delay_count.1 Nat "Checks" 42 c3_execute_example
      (by
        intro a h1 h2
        refine ⟨none, ?_⟩
        simp only [c3_execute_example]
        rw [if_pos (by omega)])
      ⟨none, by simp only [c3_execute_example]; rw [if_neg (by omega)]⟩
  · exact c3_retry_loop_delay_count.2 Nat "Report" 7 none _ 3 (by omega) rfl

/-- C2: when every attempt of the watch loop sees a failing watch command
whose fetched output is the benign "no checks reported" message, the loop
completes without error after all 5 attempts, having slept 4 times (the
final benign retry degrades to completion); when the first attempt sees a
failing watch command with a non-benign output, the loop throws
immediately on attempt 1 with no delay and no further retry. -/
theorem c2_watch_checks_benign_vs_failure :
    (∀ step : Nat → WatchStep,
       (∀ a, 1 ≤ a → a ≤ 5 → (step a).watch_status ≠ 0 ∧
          isNoChecksReportedMessage (step a).checks_output = true) →
       watchPullRequestChecks step = .ok 5 4)
    ∧ (∀ step : Nat → WatchStep,
       (step 1).watch_status ≠ 0 →
       isNoChecksReportedMessage (step 1).checks_output = false →
       watchPullRequestChecks step =
         .err (watch_error_message (step 1).checks_output) 1 0) := by
  have hstep : ∀ (step : Nat → WatchStep) (remaining attempt delays : Nat),
      (step attempt).watch_status ≠ 0 →
      isNoChecksReportedMessage (step attempt).checks_output = true →
      attempt < 5 →
      watch_go step 5 (remaining + 1) attempt delays =
        watch_go step 5 remaining (attempt + 1) (delays + 1) := by
    intro step remaining attempt delays hne hbenign hlt
    have hbeq : ((step attempt).watch_status == 0) = false := by
      simpa using hne
    simp only [watch_go, hbeq, hbenign, if_pos hlt, Bool.false_eq_true, if_false,
      if_true]
  constructor
  · intro step hall
    show watch_go step 5 (4 + 1) 1 0 = .ok 5 4
    rw [hstep step 4 1 0 (hall 1 (by omega) (by omega)).1
      (hall 1 (by omega) (by omega)).2 (by omega)]
    rw [hstep step 3 2 1 (hall 2 (by omega) (by omega)).1
      (hall 2 (by omega) (by omega)).2 (by omega)]
    rw [hstep step 2 3 2 (hall 3 (by omega) (by omega)).1
      (hall 3 (by omega) (by omega)).2 (by omega)]
    rw [hstep step 1 4 3 (hall 4 (by omega) (by omega)).1
      (hall 4 (by omega) (by omega)).2 (by omega)]
    have hbeq : ((step 5).watch_status == 0) = false := by
      simpa using (hall 5 (by omega) (by omega)).1
    simp only [watch_go, hbeq, (hall 5 (by omega) (by omega)).2,
      Bool.false_eq_true, if_false, if_true]
    rw [if_neg (by omega)]
  · intro step hne hout
    have hbeq : ((step 1).watch_status == 0) = false := by simpa using hne
    show watch_go step 5 (4 + 1) 1 0 = _
    simp only [watch_go, hbeq, hout, Bool.false_eq_true, if_false]

/-- Constant benign environment: the watch command always fails and the
fetched output is always the benign message. -/
def benign_watch_step : Nat → WatchStep :=
  fun _ => { watch_status := 1, checks_output := "no checks reported" }

/-- Constant non-benign environment: the watch command fails and the
fetched output is a genuine failure report. -/
def failing_watch_step : Nat → WatchStep :=
  fun _ => { watch_status := 1, checks_output := "1 failing check" }

theorem c2_watch_checks_witness :
    watchPullRequestChecks benign_watch_step = .ok 5 4 ∧
    watchPullRequestChecks failing_watch_step =
      .err (watch_error_message "1 failing check") 1 0 := by
  constructor
  · exact c2_watch_checks_benign_vs_failure.1 benign_watch_step
      (by
        intro a _ _
        show (1 : Int) ≠ 0 ∧ isNoChecksReportedMessage "no checks reported" = true
        exact ⟨by decide, by decide⟩)
  · exact c2_watch_checks_benign_vs_failure.2 failing_watch_step
      (by decide) (by decide)

/-! ## Branch/issue matching — `scripts/git-automation.ts` -/

/-- `extract_branch_issue_number`: the capture of the regex `^(\d+)-`
applied to the branch name — the maximal leading digit run, provided it is
non-empty and immediately followed by a hyphen. -/
def extract_branch_issue_number (branch : String) : Option String :=
  let ds := branch.data.takeWhile is_digit
  if ds.isEmpty then none
  else
    match branch.data.drop ds.length with
    | '-' :: _ => some ⟨ds⟩
    | _ => none

/-- The `AutomationError` message of `ensure_branch_matches_issue`. -/
def branch_mismatch_message (issue_number branch : String) : String :=
  "🚫 The issue number does not match the branch number.\n  Issue number: #" ++
    issue_number ++ "\n  Current branch: " ++ branch ++
    "\nSwitch to the correct branch or create a new one, then rerun this script."

/-- `ensure_branch_matches_issue` from `git-automation.ts`: on a branch
other than `main`/`master` whose leading `(\d+)-` number differs from the
issue's number, throw `AutomationError`. -/
def ensure_branch_matches_issue (branch issue_number : String) : Except String Unit :=
  if branch == "main" || branch == "master" then .ok ()
  else
    match extract_branch_issue_number branch with
    | none => .ok ()
    | some branch_issue =>
      if branch_issue ≠ issue_number then
        .error (branch_mismatch_message issue_number branch)
      else .ok ()

/-- Helper: `takeWhile` of a run all of whose elements satisfy `p`,
followed by an element that does not, is exactly the run. -/
theorem takeWhile_all_append {p : Char → Bool} {l : List Char} {x : Char}
    (r : List Char) (hall : ∀ c ∈ l, p c = true) (hx : p x = false) :
    (l ++ x :: r).takeWhile p = l := by
  induction l with
  | nil => simp [List.takeWhile, hx]
  | cons a t ih =>
    have ha : p a = true := hall a (by simp)
    simp only [List.cons_append, List.takeWhile_cons, ha, if_true]
    rw [ih (fun c hc => hall c (by simp [hc]))]

/-- C5: on a current branch of the shape `<digits>-<rest>` (the regex
`^(\d+)-` matches, capturing the digits) whose captured number differs
from the issue's number, and which is not `main`/`master`, branch
alignment fails with the branch-mismatch `AutomationError`. -/
theorem c5_branch_mismatch_error (branch issue_number : String)
    (ds rest : List Char)
    (hsplit : branch.data = ds ++ '-' :: rest) (hne : ds ≠ [])
    (hdigits : ∀ c ∈ ds, is_digit c = true)
    (hmain : branch ≠ "main") (hmaster : branch ≠ "master")
    (hdiff : String.mk ds ≠ issue_number) :
    ensure_branch_matches_issue branch issue_number =
      .error (branch_mismatch_message issue_number branch) := by
  have hbm : (branch == "main") = false := by simpa using hmain
  have hbM : (branch == "master") = false := by simpa using hmaster
  have htake : branch.data.takeWhile is_digit = ds := by
    rw [hsplit]; exact takeWhile_all_append rest hdigits (by decide)
  have hdrop : branch.data.drop ds.length = '-' :: rest := by
    rw [hsplit]; exact List.drop_left ds ('-' :: rest)
  have hextract : extract_branch_issue_number branch = some ⟨ds⟩ := by
    unfold extract_branch_issue_number
    simp only [htake, hdrop]
    cases ds with
    | nil => exact absurd rfl hne
    | cons d t => simp
  unfold ensure_branch_matches_issue
  simp only [hbm, hbM, Bool.or_self, Bool.false_eq_true, if_false, hextract,
    if_pos hdiff]

/-- Witness for `c5_branch_mismatch_error`: current branch `7-old-fix`,
target issue number `42`. -/
theorem c5_branch_mismatch_error_witness :
    ensure_branch_matches_issue "7-old-fix" "42" =
      .error (branch_mismatch_message "42" "7-old-fix") :=
  c5_branch_mismatch_error "7-old-fix" "42" ['7'] "old-fix".data
    (by decide) (by decide) (by decide) (by decide) (by decide) (by decide)

/-! ## Branch alignment — `scripts/git-automation.ts` -/

/-- `Operation` selection record (`commit`/`push`/`pr`). -/
structure Operations where
  commit : Bool
  push : Bool
  pr : Bool
deriving DecidableEq, Repr

/-- `AutomationConfig` from `git-automation.ts`. -/
structure AutomationConfig where
  issue_title : String
  issue_number : String
  target_branch : String
  operations : Operations
deriving DecidableEq, Repr

/-- `BranchAlignmentResult` from `git-automation.ts`. -/
structure BranchAlignmentResult where
  target_branch_name : String
  should_pull_main : Bool
  should_create_branch : Bool
  should_warn_about_name : Bool
deriving DecidableEq, Repr

/-- `resolve_branch_alignment` from `git-automation.ts`. -/
def resolve_branch_alignment (config : AutomationConfig)
    (current_branch : String) : BranchAlignmentResult :=
  let is_on_main := current_branch == "main" || current_branch == "master"
  if is_on_main then
    let should_create_branch := current_branch != config.target_branch
    { target_branch_name :=
        if should_create_branch then config.target_branch else current_branch
      should_pull_main := true
      should_create_branch := should_create_branch
      should_warn_about_name := false }
  else
    { target_branch_name := current_branch
      should_pull_main := false
      should_create_branch := false
      should_warn_about_name := current_branch != config.target_branch }

/-- The externally visible repository mutations / messages of
`align_working_branch`, in execution order. -/
inductive GitAction where
  | pull (branch : String)
  | create (branch : String)
  | warn (current recommended : String)
deriving DecidableEq, Repr

/-- `align_working_branch` from `git-automation.ts`: first
`ensure_branch_matches_issue` (which may throw), then the alignment
decision is executed — pull (`ensure_main_is_updated`) before branch
creation (`create_branch`) before the name warning.  The returned trace
records the performed actions in order, alongside the branch name the rest
of the workflow operates on. -/
def align_working_branch (config : AutomationConfig) (current_branch : String) :
    Except String (List GitAction × String) :=
  match ensure_branch_matches_issue current_branch config.issue_number with
  | .error e => .error e
  | .ok _ =>
    let alignment := resolve_branch_alignment config current_branch
    let pull_actions :=
      if alignment.should_pull_main then [GitAction.pull current_branch] else []
    let create_actions :=
      if alignment.should_create_branch then
        [GitAction.create alignment.target_branch_name]
      else []
    let warn_actions :=
      if alignment.should_warn_about_name then
        [GitAction.warn current_branch config.target_branch]
      else []
    .ok (pull_actions ++ create_actions ++ warn_actions,
      alignment.target_branch_name)

/-- C6: on `main`/`master` the alignment decision always sets
`should_pull_main = true` and the executed trace starts with the pull, so
the pull precedes any branch creation; when the current branch already
equals the canonical target branch, `should_create_branch = false` and no
`create` action occurs in the trace. -/
theorem c6_alignment_pull_first_and_no_recreate :
    (∀ (cfg : AutomationConfig) (cb : String),
       (cb = "main" ∨ cb = "master") →
       (resolve_branch_alignment cfg cb).should_pull_main = true ∧
       ∃ rest target, align_working_branch cfg cb =
         .ok (GitAction.pull cb :: rest, target))
    ∧ (∀ (cfg : AutomationConfig) (cb : String),
       cb = cfg.target_branch →
       (resolve_branch_alignment cfg cb).should_create_branch = false ∧
       ∀ actions target,
         align_working_branch cfg cb = .ok (actions, target) →
         ∀ b, GitAction.create b ∉ actions) := by
  constructor
  · intro cfg cb hmain
    have hensure : ensure_branch_matches_issue cb cfg.issue_number = .ok () := by
      rcases hmain with h | h <;> subst h <;> rfl
    have hpull : (resolve_branch_alignment cfg cb).should_pull_main = true := by
      rcases hmain with h | h <;> subst h <;> simp [resolve_branch_alignment]
    refine ⟨hpull, ?_⟩
    refine ⟨(if (resolve_branch_alignment cfg cb).should_create_branch then
        [GitAction.create (resolve_branch_alignment cfg cb).target_branch_name]
      else []) ++
      (if (resolve_branch_alignment cfg cb).should_warn_about_name then
        [GitAction.warn cb cfg.target_branch]
      else []),
      (resolve_branch_alignment cfg cb).target_branch_name, ?_⟩
    simp only [align_working_branch, hensure, hpull, if_true, List.cons_append,
      List.nil_append]
  · intro cfg cb heq
    subst heq
    have hcreate :
        (resolve_branch_alignment cfg cfg.target_branch).should_create_branch = false := by
      unfold resolve_branch_alignment
      by_cases h : (cfg.target_branch == "main" ||
          cfg.target_branch == "master") = true <;> simp [h]
    refine ⟨hcreate, ?_⟩
    intro actions target halign b hmem
    cases hensure : ensure_branch_matches_issue cfg.target_branch cfg.issue_number with
    | error e => simp [align_working_branch, hensure] at halign
    | ok u =>
      simp only [align_working_branch, hensure, hcreate, Bool.false_eq_true,
        if_false, List.append_nil, List.nil_append, Except.ok.injEq,
        Prod.mk.injEq] at halign
      obtain ⟨hact, -⟩ := halign
      subst hact
      rcases List.mem_append.mp hmem with hmem1 | hmem2
      · by_cases hp : (resolve_branch_alignment cfg cfg.target_branch).should_pull_main = true
        · simp [hp] at hmem1
        · simp [Bool.not_eq_true] at hp
          simp [hp] at hmem1
      · by_cases hw : (resolve_branch_alignment cfg cfg.target_branch).should_warn_about_name = true
        · simp [hw] at hmem2
        · simp [Bool.not_eq_true] at hw
          simp [hw] at hmem2

/-- Witness for `c6_alignment_pull_first_and_no_recreate`: target branch
`42-fix-bug`, once from `main` and once already on `42-fix-bug`. -/
theorem c6_alignment_witness :
    ((resolve_branch_alignment
        ⟨"Fix bug", "42", "42-fix-bug", ⟨false, false, false⟩⟩ "main").should_pull_main = true ∧
     ∃ rest target, align_working_branch
        ⟨"Fix bug", "42", "42-fix-bug", ⟨false, false, false⟩⟩ "main" =
        .ok (GitAction.pull "main" :: rest, target)) ∧
    ((resolve_branch_alignment
        ⟨"Fix bug", "42", "42-fix-bug", ⟨false, false, false⟩⟩ "42-fix-bug").should_create_branch = false) := by
  constructor
  · exact c6_alignment_pull_first_and_no_recreate.1
      ⟨"Fix bug", "42", "42-fix-bug", ⟨false, false, false⟩⟩ "main"
      (Or.inl rfl)
  · exact (c6_alignment_pull_first_and_no_recreate.2
      ⟨"Fix bug", "42", "42-fix-bug", ⟨false, false, false⟩⟩ "42-fix-bug"
      rfl).1

/-! ## PR creation — `scripts/git-automation.ts` -/

/-- `CommandResult` from `scripts/git-ops/command-types.ts`. -/
structure CommandResult where
  stdout : String
  stderr : String
  status : Int
deriving DecidableEq, Repr

/-- `is_existing_pr_message` from `git-automation.ts`: the combined output,
lower-cased, contains both "pull request" and "already exists". -/
def is_existing_pr_message (command_output : String) : Bool :=
  string_includes (lower_string command_output) "pull request" &&
    string_includes (lower_string command_output) "already exists"

/-- The `AutomationError` message thrown by `handle_pr_creation_result`. -/
def pr_creation_failure_message (command_output : String) : String :=
  "Failed to create PR." ++
    (if command_output.length > 0 then "\n" ++ command_output else "")

/-- `handle_pr_creation_result` from `git-automation.ts`: exit status 0 is
success; a non-zero exit whose output matches the existing-PR pattern is
treated as success ("Existing PR reused", and `run_pr_flow_if_requested`
then proceeds to check-polling); any other non-zero exit throws
`AutomationError`. -/
def handle_pr_creation_result (result : CommandResult)
    (command_output : String) : Except String Unit :=
  if result.status == 0 then .ok ()
  else if is_existing_pr_message command_output then .ok ()
  else .error (pr_creation_failure_message command_output)

/-- C7: for a PR-creation command with non-zero exit status, the result is
treated as success (the orchestrator continues to check-polling) exactly
when the combined output contains, case-insensitively, both "pull request"
and "already exists"; every other non-zero outcome raises the hard
`AutomationError`. -/
theorem c7_existing_pr_reused (result : CommandResult) (command_output : String)
    (h : result.status ≠ 0) :
    (handle_pr_creation_result result command_output = .ok () ↔
      (string_includes (lower_string command_output) "pull request" = true ∧
       string_includes (lower_string command_output) "already exists" = true)) ∧
    (is_existing_pr_message command_output = false →
      handle_pr_creation_result result command_output =
        .error (pr_creation_failure_message command_output)) := by
  have hbeq : (result.status == 0) = false := by simpa using h
  constructor
  · by_cases hex : is_existing_pr_message command_output = true
    · have hboth := hex
      rw [is_existing_pr_message, Bool.and_eq_true] at hboth
      simp [handle_pr_creation_result, hbeq, hex, hboth]
    · rw [Bool.not_eq_true] at hex
      have hboth : ¬ (string_includes (lower_string command_output) "pull request" = true ∧
          string_includes (lower_string command_output) "already exists" = true) := by
        intro hcontra
        rw [is_existing_pr_message, hcontra.1, hcontra.2] at hex
        simp at hex
      simp [handle_pr_creation_result, hbeq, hex, hboth]
  · intro hex
    simp [handle_pr_creation_result, hbeq, hex]

/-- Witness for `c7_existing_pr_reused`: a rejected `gh pr create` whose
output reports an existing PR is reused; an unrelated failure output is a
hard error. -/
theorem c7_existing_pr_reused_witness :
    handle_pr_creation_result ⟨"", "", 1⟩
      "GraphQL: a Pull Request already exists for this branch" = .ok () ∧
    handle_pr_creation_result ⟨"", "", 1⟩ "network failure" =
      .error (pr_creation_failure_message "network failure") := by
  constructor
  · exact (c7_existing_pr_reused ⟨"", "", 1⟩
      "GraphQL: a Pull Request already exists for this branch"
      (by decide)).1.mpr ⟨by decide, by decide⟩
  · exact (c7_existing_pr_reused ⟨"", "", 1⟩ "network failure"
      (by decide)).2 (by decide)

/-! ## Yes/no confirmation — `scripts/git-ops/git-helpers.ts`
(prompt utilities) -/

/-- `normalize_yes_no_answer`: trim and lower-case the raw answer; only the
exact tokens `y` and `n` are valid, anything else is `undefined`. -/
def normalize_yes_no_answer (raw_answer : String) : Option String :=
  let answer := lower_string (trim_string raw_answer)
  if answer = "y" || answer = "n" then some answer else none

/-- `ask_yes_no_binary`: the re-prompting loop, over the stream of answers
the user types (indexed from `idx`), bounded by `fuel` read attempts.
Returns the boolean decision together with the index of the accepted
answer; `none` means the loop was still re-prompting when the fuel ran out
(the source loops forever). -/
def ask_yes_no_binary (answers : Nat → String) : Nat → Nat → Option (Bool × Nat)
  | 0, _ => none
  | fuel + 1, idx =>
    match normalize_yes_no_answer (answers idx) with
    | some normalized => some (normalized == "y", idx)
    | none => ask_yes_no_binary answers fuel (idx + 1)

/-- Characterization of `normalize_yes_no_answer` in terms of the
normalized (trimmed, lower-cased) answer. -/
theorem normalize_yes_no_answer_eq (raw : String) :
    normalize_yes_no_answer raw =
      if lower_string (trim_string raw) = "y" ∨ lower_string (trim_string raw) = "n"
      then some (lower_string (trim_string raw)) else none := by
  rw [normalize_yes_no_answer]
  by_cases h1 : lower_string (trim_string raw) = "y" <;>
    by_cases h2 : lower_string (trim_string raw) = "n" <;>
    simp [h1, h2]

/-- C10: the confirmation normalizes each answer by trimming and
lower-casing; the loop returns `true` exactly when the accepted normalized
answer is `y` and `false` exactly when it is `n`, skipping (re-prompting
on) every earlier answer that normalizes to neither; if no answer ever
normalizes to `y`/`n` — e.g. `yes`, `no` or the empty answer, which are
all invalid — it never returns any defaulted value. -/
theorem c10_yes_no_confirmation :
    (∀ (answers : Nat → String) (fuel idx : Nat) (b : Bool) (k : Nat),
       ask_yes_no_binary answers fuel idx = some (b, k) →
       idx ≤ k ∧
       (∀ j, idx ≤ j → j < k → normalize_yes_no_answer (answers j) = none) ∧
       ((lower_string (trim_string (answers k)) = "y" ∧ b = true) ∨
        (lower_string (trim_string (answers k)) = "n" ∧ b = false)))
    ∧ (∀ (answers : Nat → String) (fuel idx : Nat),
       (∀ j, normalize_yes_no_answer (answers j) = none) →
       ask_yes_no_binary answers fuel idx = none)
    ∧ normalize_yes_no_answer "yes" = none
    ∧ normalize_yes_no_answer "no" = none
    ∧ normalize_yes_no_answer "" = none
    ∧ normalize_yes_no_answer " Y " = some "y" := by
  refine ⟨?_, ?_, by decide, by decide, by decide, by decide⟩
  · intro answers fuel
    induction fuel with
    | zero =>
      intro idx b k h
      simp [ask_yes_no_binary] at h
    | succ fuel ih =>
      intro idx b k h
      rw [ask_yes_no_binary] at h
      cases hnorm : normalize_yes_no_answer (answers idx) with
      | some normalized =>
        rw [hnorm] at h
        simp only [Option.some.injEq, Prod.mk.injEq] at h
        obtain ⟨hb, hk⟩ := h
        subst hk
        refine ⟨le_refl _, fun j hj1 hj2 => absurd hj1 (by omega), ?_⟩
        rw [normalize_yes_no_answer_eq] at hnorm
        by_cases hcond : lower_string (trim_string (answers idx)) = "y" ∨
            lower_string (trim_string (answers idx)) = "n"
        · rw [if_pos hcond] at hnorm
          have hlow := Option.some.inj hnorm
          rcases hcond with hv | hv
          · refine Or.inl ⟨hv, ?_⟩
            rw [← hb, ← hlow, hv]
            rfl
          · refine Or.inr ⟨hv, ?_⟩
            rw [← hb, ← hlow, hv]
            rfl
        · rw [if_neg hcond] at hnorm
          exact absurd hnorm (by simp)
      | none =>
        rw [hnorm] at h
        obtain ⟨h1, h2, h3⟩ := ih (idx + 1) b k h
        refine ⟨by omega, ?_, h3⟩
        intro j hj1 hj2
        rcases Nat.eq_or_lt_of_le hj1 with hj | hj
        · exact hj ▸ hnorm
        · exact h2 j (by omega) hj2
  · intro answers fuel
    induction fuel with
    | zero =>
      intro idx _
      rfl
    | succ fuel ih =>
      intro idx hall
      rw [ask_yes_no_binary, hall idx]
      exact ih (idx + 1) hall

/-- The answer stream for the witness: `yes`, then ` Y `. -/
def c10_answers_example : Nat → String :=
  fun i => if i = 0 then "yes" else " Y "

/-- Witness for `c10_yes_no_confirmation`: the loop rejects `yes` and
accepts ` Y ` as `true` at index 1. -/
theorem c10_yes_no_confirmation_witness :
    0 ≤ 1 ∧
    (∀ j, 0 ≤ j → j < 1 →
      normalize_yes_no_answer (c10_answers_example j) = none) ∧
    ((lower_string (trim_string (c10_answers_example 1)) = "y" ∧ true = true) ∨
     (lower_string (trim_string (c10_answers_example 1)) = "n" ∧ true = false)) :=
  c10_yes_no_confirmation.1 c10_answers_example 5 0 true 1 (by decide)

/-! ## Issue-line parsing — `parse_issue_line`, `scripts/git-automation.ts`

`parse_issue_line` strips an optional case-insensitive `issue:` marker,
trims, locates the *last* `#`, takes the trimmed text before it as the
title, and extracts the first digit run after it as the number; otherwise
it throws `AutomationError` (the `ValidationError` of the spec). -/

/-- Strip the regex `^issue:\s*` (case-insensitive marker followed by
whitespace) from the front of the line, when it matches. -/
def strip_issue_marker (l : List Char) : List Char :=
  if (l.take 6).map Char.toLower = "issue:".data then
    (l.drop 6).dropWhile is_ws
  else l

/-- The normalized line: marker stripped, then trimmed. -/
def normalize_issue_line (line : String) : List Char :=
  trim_chars (strip_issue_marker line.data)

/-- `lastIndexOf` on a character list. -/
def last_index_of (c : Char) : List Char → Option Nat
  | [] => none
  | a :: t =>
    match last_index_of c t with
    | some i => some (i + 1)
    | none => if a = c then some 0 else none

/-- The first maximal digit run of a list — `match(/\d+/u)`, `none` when
the list has no digit. -/
def first_digit_run (l : List Char) : Option (List Char) :=
  let rest := l.dropWhile (fun c => !is_digit c)
  if rest.isEmpty then none else some (rest.takeWhile is_digit)

/-- The first malformed-line message of `parse_issue_line`. -/
def issue_format_error : String :=
  "Issue information is malformed. Use the format `<title> #<number>`."

/-- The second malformed-line message of `parse_issue_line`. -/
def issue_content_error : String :=
  "Issue information is malformed. Check the title and number."

/-- `parse_issue_line` from `git-automation.ts`: `hashIndex <= 0` (no `#`,
or `#` as very first character) throws; then the trimmed slice before the
last `#` and the digit run of the trimmed slice after it are validated. -/
def parse_issue_line (line : String) : Except String (String × String) :=
  let n := normalize_issue_line line
  match last_index_of '#' n with
  | none => .error issue_format_error
  | some h =>
    if h = 0 then .error issue_format_error
    else
      let raw_title := trim_chars (n.take h)
      let raw_number := trim_chars (n.drop (h + 1))
      match first_digit_run raw_number with
      | none => .error issue_content_error
      | some ds =>
        if raw_title.isEmpty then .error issue_content_error
        else .ok (⟨raw_title⟩, ⟨ds⟩)

/-- The claim's success/failure conditions, stated over positions of `#`
in the normalized line. -/
def is_last_hash (n : List Char) (i : Nat) : Prop :=
  n[i]? = some '#' ∧ ∀ j : Nat, i < j → n[j]? ≠ some '#'

/-- "The line has a `#` marker with non-empty text before it". -/
def has_marked_hash (n : List Char) : Prop :=
  ∃ i, n[i]? = some '#' ∧ trim_chars (n.take i) ≠ []

/-- "The substring after the last `#` contains no digit". -/
def no_digit_after_last_hash (n : List Char) : Prop :=
  ∃ i, is_last_hash n i ∧ ∀ c ∈ n.drop (i + 1), is_digit c = false

/-- Whitespace characters are not digits. -/
theorem ws_not_digit {c : Char} (h : is_ws c = true) : is_digit c = false := by
  rw [is_ws] at h
  simp only [Bool.or_eq_true, beq_iff_eq] at h
  rcases h with ((h | h) | h) | h <;> subst h <;> decide

/-- The first element surviving `dropWhile p` falsifies `p`. -/
theorem dropWhile_head_not {p : Char → Bool} (l : List Char) :
    ∀ {a : Char} {t : List Char}, l.dropWhile p = a :: t → p a = false := by
  induction l with
  | nil => intro a t h; simp at h
  | cons c r ih =>
    intro a t h
    by_cases hc : p c = true
    · rw [List.dropWhile_cons, if_pos hc] at h
      exact ih h
    · rw [List.dropWhile_cons, if_neg hc] at h
      cases h
      exact Bool.not_eq_true _ ▸ hc

/-- `drop_trailing_ws` returns `[]` exactly on all-whitespace lists. -/
theorem drop_trailing_ws_eq_nil_iff {l : List Char} :
    drop_trailing_ws l = [] ↔ ∀ c ∈ l, is_ws c = true := by
  induction l with
  | nil => simp [drop_trailing_ws]
  | cons c t ih =>
    rw [drop_trailing_ws]
    cases ht : drop_trailing_ws t with
    | nil =>
      have hall := ih.mp ht
      constructor
      · intro h
        by_cases hc : is_ws c = true
        · intro x hx
          rcases List.mem_cons.mp hx with hx | hx
          · exact hx ▸ hc
          · exact hall x hx
        · rw [if_neg hc] at h
          simp at h
      · intro h
        rw [if_pos (h c (by simp))]
    | cons d t2 =>
      constructor
      · intro h
        simp at h
      · intro h
        have : drop_trailing_ws t = [] :=
          ih.mpr (fun x hx => h x (by simp [hx]))
        rw [this] at ht
        simp at ht

/-- `trim_chars` returns `[]` exactly on all-whitespace lists. -/
theorem trim_chars_eq_nil_iff {l : List Char} :
    trim_chars l = [] ↔ ∀ c ∈ l, is_ws c = true := by
  rw [trim_chars, drop_trailing_ws_eq_nil_iff]
  constructor
  · intro h c hc
    by_cases hw : is_ws c = true
    · exact hw
    · have hmem : c ∈ l.dropWhile is_ws := by
        have hsplit := List.takeWhile_append_dropWhile (p := is_ws) (l := l)
        rcases List.mem_append.mp (hsplit ▸ hc) with hm | hm
        · exact absurd (List.mem_takeWhile_imp hm) hw
        · exact hm
      exact h c hmem
  · intro h c hc
    exact h c (List.Sublist.subset (List.dropWhile_sublist is_ws) hc)

/-- `drop_trailing_ws` preserves the head of its input. -/
theorem drop_trailing_ws_head {l : List Char} {a : Char} {t : List Char}
    (h : drop_trailing_ws l = a :: t) : ∃ t0, l = a :: t0 := by
  cases l with
  | nil => simp [drop_trailing_ws] at h
  | cons c r =>
    rw [drop_trailing_ws] at h
    cases hr : drop_trailing_ws r with
    | nil =>
      rw [hr] at h
      by_cases hc : is_ws c = true
      · rw [if_pos hc] at h; simp at h
      · rw [if_neg hc] at h
        cases h
        exact ⟨r, rfl⟩
    | cons d t2 =>
      rw [hr] at h
      cases h
      exact ⟨r, rfl⟩

/-- The head of a trimmed list is not whitespace. -/
theorem trim_chars_head_not_ws {l : List Char} {a : Char} {t : List Char}
    (h : trim_chars l = a :: t) : is_ws a = false := by
  rw [trim_chars] at h
  obtain ⟨t0, ht0⟩ := drop_trailing_ws_head h
  exact dropWhile_head_not _ ht0

/-- Trimming a list whose head is not whitespace yields a non-empty list. -/
theorem trim_chars_cons_ne_nil {a : Char} {l : List Char}
    (ha : is_ws a = false) : trim_chars (a :: l) ≠ [] := by
  intro h
  have := trim_chars_eq_nil_iff.mp h a (by simp)
  rw [this] at ha
  exact absurd ha (by simp)

/-- `last_index_of` finds nothing exactly when the character is absent. -/
theorem last_index_of_eq_none_iff {c : Char} {l : List Char} :
    last_index_of c l = none ↔ ∀ j : Nat, l[j]? ≠ some c := by
  induction l with
  | nil => simp [last_index_of]
  | cons a t ih =>
    rw [last_index_of]
    cases ht : last_index_of c t with
    | some i =>
      constructor
      · intro h
        exact absurd h (by simp)
      · intro hall
        exfalso
        have hno : ¬ ∀ j : Nat, t[j]? ≠ some c := by
          intro hco
          rw [ih.mpr hco] at ht
          cases ht
        push_neg at hno
        obtain ⟨j, hj⟩ := hno
        exact hall (j + 1) (by simpa using hj)
    | none =>
      have hall := ih.mp ht
      by_cases hac : a = c
      · rw [if_pos hac]
        constructor
        · intro h
          exact absurd h (by simp)
        · intro hco
          exact absurd (hco 0 · ) (by simp [hac])
      · rw [if_neg hac]
        constructor
        · intro _ j
          cases j with
          | zero => simp [hac]
          | succ j => simpa using hall j
        · intro _
          rfl

/-- `last_index_of` computes the position of the last occurrence. -/
theorem last_index_of_eq_some_iff {c : Char} {l : List Char} {i : Nat} :
    last_index_of c l = some i ↔
      (l[i]? = some c ∧ ∀ j : Nat, i < j → l[j]? ≠ some c) := by
  induction l generalizing i with
  | nil => simp [last_index_of]
  | cons a t ih =>
    rw [last_index_of]
    cases ht : last_index_of c t with
    | some i' =>
      have hspec := ih.mp ht
      constructor
      · intro h
        have hi : i = i' + 1 := (Option.some.inj h).symm
        subst hi
        refine ⟨by simpa using hspec.1, ?_⟩
        intro j hj
        cases j with
        | zero => omega
        | succ j' => simpa using hspec.2 j' (by omega)
      · rintro ⟨hget, hlast⟩
        cases i with
        | zero =>
          exfalso
          have h1 : (a :: t)[i' + 1]? ≠ some c := hlast (i' + 1) (by omega)
          rw [List.getElem?_cons_succ] at h1
          exact h1 hspec.1
        | succ i0 =>
          have hget' : t[i0]? = some c := by simpa using hget
          have hlast' : ∀ j : Nat, i0 < j → t[j]? ≠ some c := by
            intro j hj
            have := hlast (j + 1) (by omega)
            simpa using this
          have heq : last_index_of c t = some i0 := ih.mpr ⟨hget', hlast'⟩
          rw [ht] at heq
          have : i' = i0 := Option.some.inj heq
          show some (i' + 1) = some (i0 + 1)
          rw [this]
    | none =>
      have hall := last_index_of_eq_none_iff.mp ht
      by_cases hac : a = c
      · rw [if_pos hac]
        constructor
        · intro h
          have hi : i = 0 := (Option.some.inj h).symm
          subst hi
          refine ⟨by simp [hac], ?_⟩
          intro j hj
          cases j with
          | zero => omega
          | succ j' => simpa using hall j'
        · rintro ⟨hget, hlast⟩
          cases i with
          | zero => rfl
          | succ i0 =>
            exfalso
            have : t[i0]? = some c := by simpa using hget
            exact hall i0 this
      · rw [if_neg hac]
        constructor
        · intro h
          exact absurd h (by simp)
        · rintro ⟨hget, hlast⟩
          exfalso
          cases i with
          | zero =>
            have : a = c := by simpa using hget
            exact hac this
          | succ i0 =>
            have : t[i0]? = some c := by simpa using hget
            exact hall i0 this

/-- `dropWhile p` after `dropWhile q` collapses when `q` implies `p`. -/
theorem dropWhile_dropWhile_subsume {p q : Char → Bool}
    (himp : ∀ c, q c = true → p c = true) (l : List Char) :
    (l.dropWhile q).dropWhile p = l.dropWhile p := by
  induction l with
  | nil => rfl
  | cons a t ih =>
    by_cases hq : q a = true
    · rw [List.dropWhile_cons, if_pos hq, ih, List.dropWhile_cons,
        if_pos (himp a hq)]
    · rw [List.dropWhile_cons, if_neg hq]

/-- `takeWhile p` of a list with no satisfying head is empty. -/
theorem takeWhile_eq_nil_of_all_not {p : Char → Bool} {l : List Char}
    (h : ∀ c ∈ l, p c = false) : l.takeWhile p = [] := by
  cases l with
  | nil => rfl
  | cons a t =>
    rw [List.takeWhile_cons, h a (by simp)]
    rfl

/-- Digits are not whitespace. -/
theorem digit_not_ws {c : Char} (h : is_digit c = true) : is_ws c = false := by
  by_cases hw : is_ws c = true
  · rw [ws_not_digit hw] at h
    exact absurd h (by simp)
  · simpa using hw

/-- First digit run of a list starting with a digit. -/
theorem first_digit_run_cons_digit {c : Char} {l : List Char}
    (hc : is_digit c = true) :
    first_digit_run (c :: l) = some (c :: l.takeWhile is_digit) := by
  rw [first_digit_run]
  have hdrop : (c :: l).dropWhile (fun c => !is_digit c) = c :: l := by
    rw [List.dropWhile_cons, hc]
    simp
  rw [hdrop]
  simp only [List.isEmpty_cons, Bool.false_eq_true, if_false]
  rw [List.takeWhile_cons, hc]
  rfl

/-- A non-digit head does not affect the first digit run. -/
theorem first_digit_run_cons_not_digit {c : Char} {l : List Char}
    (hc : is_digit c = false) :
    first_digit_run (c :: l) = first_digit_run l := by
  rw [first_digit_run, first_digit_run]
  rw [List.dropWhile_cons, hc]
  rfl

/-- The first digit run is absent exactly when the list has no digit. -/
theorem first_digit_run_eq_none_iff {l : List Char} :
    first_digit_run l = none ↔ ∀ c ∈ l, is_digit c = false := by
  rw [first_digit_run]
  constructor
  · intro h c hc
    by_cases hrest : (l.dropWhile fun c => !is_digit c).isEmpty = true
    · have := List.dropWhile_eq_nil_iff.mp (List.isEmpty_iff.mp hrest) c hc
      simpa using this
    · rw [if_neg hrest] at h
      exact absurd h (by simp)
  · intro h
    have : (l.dropWhile fun c => !is_digit c) = [] :=
      List.dropWhile_eq_nil_iff.mpr (fun x hx => by simp [h x hx])
    rw [if_pos (List.isEmpty_iff.mpr this)]

/-- `takeWhile` over a cons whose head satisfies the test. -/
theorem takeWhile_cons_pos {p : Char → Bool} {a : Char} {l : List Char}
    (h : p a = true) : (a :: l).takeWhile p = a :: l.takeWhile p := by
  rw [List.takeWhile_cons, h]
  rfl

/-- `takeWhile` over a cons whose head falsifies the test. -/
theorem takeWhile_cons_neg {p : Char → Bool} {a : Char} {l : List Char}
    (h : p a = false) : (a :: l).takeWhile p = [] := by
  rw [List.takeWhile_cons, h]
  rfl

/-- Removing the trailing whitespace does not change the `takeWhile` view
of the first digit run. -/
theorem takeWhile_digit_drop_trailing (t : List Char) :
    (drop_trailing_ws t).takeWhile is_digit = t.takeWhile is_digit := by
  induction t with
  | nil => rfl
  | cons x s ih =>
    rw [drop_trailing_ws]
    cases hs : drop_trailing_ws s with
    | nil =>
      have hall := drop_trailing_ws_eq_nil_iff.mp hs
      have hsnil : s.takeWhile is_digit = [] :=
        takeWhile_eq_nil_of_all_not (fun c hc => ws_not_digit (hall c hc))
      by_cases hx : is_ws x = true
      · rw [if_pos hx]
        rw [List.takeWhile_cons, ws_not_digit hx]
        rfl
      · rw [if_neg hx]
        rw [List.takeWhile_cons, List.takeWhile_cons, hsnil]
        rfl
    | cons d t2 =>
      rw [hs] at ih
      by_cases hx : is_digit x = true
      · rw [takeWhile_cons_pos hx, takeWhile_cons_pos hx, ih]
      · rw [Bool.not_eq_true] at hx
        rw [takeWhile_cons_neg hx, takeWhile_cons_neg hx]

/-- Removing trailing whitespace does not change the first digit run. -/
theorem first_digit_run_drop_trailing (t : List Char) :
    first_digit_run (drop_trailing_ws t) = first_digit_run t := by
  induction t with
  | nil => rfl
  | cons c s ih =>
    rw [drop_trailing_ws]
    cases hs : drop_trailing_ws s with
    | nil =>
      have hall := drop_trailing_ws_eq_nil_iff.mp hs
      have hnod : ∀ x ∈ s, is_digit x = false :=
        fun x hx => ws_not_digit (hall x hx)
      have hfs : first_digit_run s = none := first_digit_run_eq_none_iff.mpr hnod
      by_cases hc : is_ws c = true
      · rw [if_pos hc]
        rw [first_digit_run_cons_not_digit (ws_not_digit hc), hfs]
        rfl
      · rw [if_neg hc]
        by_cases hd : is_digit c = true
        · rw [first_digit_run_cons_digit hd, first_digit_run_cons_digit hd,
            takeWhile_eq_nil_of_all_not hnod]
          rfl
        · rw [Bool.not_eq_true] at hd
          rw [first_digit_run_cons_not_digit hd,
            first_digit_run_cons_not_digit hd, hfs]
          rfl
    | cons d t2 =>
      rw [hs] at ih
      by_cases hd : is_digit c = true
      · rw [first_digit_run_cons_digit hd, first_digit_run_cons_digit hd]
        rw [← hs, takeWhile_digit_drop_trailing]
      · rw [Bool.not_eq_true] at hd
        rw [first_digit_run_cons_not_digit hd,
          first_digit_run_cons_not_digit hd, ih]

/-- Trimming does not change the first digit run. -/
theorem first_digit_run_trim (l : List Char) :
    first_digit_run (trim_chars l) = first_digit_run l := by
  rw [trim_chars, first_digit_run_drop_trailing]
  rw [first_digit_run, first_digit_run,
    dropWhile_dropWhile_subsume (fun c hc => by simp [ws_not_digit hc]) l]

/-- C4: `parse_issue_line` fails exactly when the normalized line has no
`#` marker with non-empty text before it, or the substring after the last
`#` contains no digit; on success the title is the trimmed text before the
last `#` (which may itself contain `#`) and the number is the first digit
run after the last `#`. -/
theorem c4_parse_issue_line_spec (line : String) :
    ((∃ e, parse_issue_line line = .error e) ↔
      (¬ has_marked_hash (normalize_issue_line line) ∨
       no_digit_after_last_hash (normalize_issue_line line)))
    ∧ (∀ t num, parse_issue_line line = .ok (t, num) →
       ∃ i, is_last_hash (normalize_issue_line line) i ∧
         t = String.mk (trim_chars ((normalize_issue_line line).take i)) ∧
         ∃ ds, first_digit_run ((normalize_issue_line line).drop (i + 1)) =
             some ds ∧
           num = String.mk ds) := by
  have htitle : ∀ h : Nat, (normalize_issue_line line)[h]? = some '#' → 1 ≤ h →
      trim_chars ((normalize_issue_line line).take h) ≠ [] := by
    intro h hget hge
    cases hn : normalize_issue_line line with
    | nil =>
      rw [hn] at hget
      simp at hget
    | cons a rest =>
      have hn' : trim_chars (strip_issue_marker line.data) = a :: rest := by
        rw [← hn]
        rfl
      have ha : is_ws a = false := trim_chars_head_not_ws hn'
      obtain ⟨h0, rfl⟩ : ∃ h0, h = h0 + 1 := ⟨h - 1, by omega⟩
      rw [List.take_succ_cons]
      exact trim_chars_cons_ne_nil ha
  cases hlast : last_index_of '#' (normalize_issue_line line) with
  | none =>
    have hall := last_index_of_eq_none_iff.mp hlast
    have hp : parse_issue_line line = .error issue_format_error := by
      simp [parse_issue_line, hlast]
    constructor
    · constructor
      · intro _
        left
        rintro ⟨i, hi, -⟩
        exact hall i hi
      · intro _
        exact ⟨issue_format_error, hp⟩
    · intro t num hok
      rw [hp] at hok
      exact Except.noConfusion hok
  | some h =>
    obtain ⟨hget, hmax⟩ := last_index_of_eq_some_iff.mp hlast
    cases h with
    | zero =>
      have hp : parse_issue_line line = .error issue_format_error := by
        simp [parse_issue_line, hlast]
      constructor
      · constructor
        · intro _
          left
          rintro ⟨i, hi, hne⟩
          have hi0 : i = 0 := by
            by_contra hne0
            exact hmax i (by omega) hi
          subst hi0
          rw [List.take_zero] at hne
          exact hne rfl
        · intro _
          exact ⟨issue_format_error, hp⟩
      · intro t num hok
        rw [hp] at hok
        exact Except.noConfusion hok
    | succ h0 =>
      have hlasthash : is_last_hash (normalize_issue_line line) (h0 + 1) :=
        ⟨hget, hmax⟩
      have hmark : has_marked_hash (normalize_issue_line line) :=
        ⟨h0 + 1, hget, htitle (h0 + 1) hget (by omega)⟩
      have htrim :=
        first_digit_run_trim ((normalize_issue_line line).drop (h0 + 1 + 1))
      cases hrun :
          first_digit_run ((normalize_issue_line line).drop (h0 + 1 + 1)) with
      | none =>
        have hp : parse_issue_line line = .error issue_content_error := by
          simp only [parse_issue_line, hlast]
          rw [if_neg (by omega : ¬ h0 + 1 = 0)]
          simp only [htrim, hrun]
        constructor
        · constructor
          · intro _
            right
            exact ⟨h0 + 1, hlasthash, first_digit_run_eq_none_iff.mp hrun⟩
          · intro _
            exact ⟨issue_content_error, hp⟩
        · intro t num hok
          rw [hp] at hok
          exact Except.noConfusion hok
      | some ds =>
        have hne : trim_chars ((normalize_issue_line line).take (h0 + 1)) ≠ [] :=
          htitle (h0 + 1) hget (by omega)
        have hp : parse_issue_line line =
            .ok (⟨trim_chars ((normalize_issue_line line).take (h0 + 1))⟩,
              ⟨ds⟩) := by
          simp only [parse_issue_line, hlast]
          rw [if_neg (by omega : ¬ h0 + 1 = 0)]
          simp only [htrim, hrun]
          rw [if_neg (by simpa [List.isEmpty_iff] using hne)]
        constructor
        · constructor
          · rintro ⟨e, he⟩
            rw [hp] at he
            exact Except.noConfusion he
          · intro hcond
            exfalso
            rcases hcond with hno | hnod
            · exact hno hmark
            · obtain ⟨i, hil, hnodig⟩ := hnod
              have hieq : i = h0 + 1 := by
                by_contra hne2
                rcases Nat.lt_or_ge i (h0 + 1) with hlt | hge2
                · exact hil.2 (h0 + 1) (by omega) hget
                · exact hmax i (by omega) hil.1
              subst hieq
              have hcontra :
                  first_digit_run ((normalize_issue_line line).drop (h0 + 1 + 1))
                    = none :=
                first_digit_run_eq_none_iff.mpr hnodig
              rw [hrun] at hcontra
              exact Option.noConfusion hcontra
        · intro t num hok
          rw [hp] at hok
          injection hok with hpair
          injection hpair with h1 h2
          exact ⟨h0 + 1, hlasthash, h1.symm, ds, hrun, h2.symm⟩

/-- Witness for `c4_parse_issue_line_spec`: the line
`Fix login bug #101` parses to title `Fix login bug` and number `101`. -/
theorem c4_parse_issue_line_spec_witness :
    ∃ i, is_last_hash (normalize_issue_line "Fix login bug #101") i ∧
      "Fix login bug" = String.mk
        (trim_chars ((normalize_issue_line "Fix login bug #101").take i)) ∧
      ∃ ds, first_digit_run
          ((normalize_issue_line "Fix login bug #101").drop (i + 1)) =
          some ds ∧
        "101" = String.mk ds :=
  (c4_parse_issue_line_spec "Fix login bug #101").2 "Fix login bug" "101" rfl

/-! ## Slugification — `sanitize_branch_slug` / `generate_target_branch`,
`scripts/git-automation.ts`

The slugifier lower-cases, applies Unicode NFKD normalization, replaces
runs of characters outside `[a-z0-9]` by a single hyphen, collapses hyphen
runs, strips one leading and one trailing hyphen (the regex `^-|-$` with
the global flag), and falls back to `update` when nothing is left.  NFKD is
an external Unicode operation; it is modelled as an explicit function
parameter.  The fact actually used about it — NFKD fixes ASCII strings —
is taken as a hypothesis where needed. -/

/-- The regex class `[a-z0-9]`. -/
def is_alnum_lower (c : Char) : Bool :=
  (97 ≤ c.toNat && c.toNat ≤ 122) || (48 ≤ c.toNat && c.toNat ≤ 57)

/-- Characters that can appear in a slug: `[a-z0-9-]`. -/
def is_slug_char (c : Char) : Bool :=
  c == '-' || is_alnum_lower c

/-- Replace every maximal run of non-`[a-z0-9]` characters by a single
hyphen (`replace with pattern [^a-z0-9]+ by '-'`), as a left-to-right scan whose
state records whether the scan is inside such a run. -/
def collapse_non_alnum_aux : Bool → List Char → List Char
  | _, [] => []
  | in_run, c :: t =>
    if is_alnum_lower c then c :: collapse_non_alnum_aux false t
    else if in_run then collapse_non_alnum_aux true t
    else '-' :: collapse_non_alnum_aux true t

/-- `replace with pattern [^a-z0-9]+ by '-'`. -/
def collapse_non_alnum (l : List Char) : List Char :=
  collapse_non_alnum_aux false l

/-- Collapse runs of hyphens (`replace with pattern -+ by '-'`), as the analogous
scan. -/
def collapse_hyphen_runs_aux : Bool → List Char → List Char
  | _, [] => []
  | in_run, c :: t =>
    if c == '-' then
      if in_run then collapse_hyphen_runs_aux true t
      else '-' :: collapse_hyphen_runs_aux true t
    else c :: collapse_hyphen_runs_aux false t

/-- `replace with pattern -+ by '-'`. -/
def collapse_hyphen_runs (l : List Char) : List Char :=
  collapse_hyphen_runs_aux false l

/-- Remove one leading hyphen (the `^-` alternative of `/^-|-$/g`). -/
def strip_leading_hyphen : List Char → List Char
  | '-' :: t => t
  | l => l

/-- Remove one trailing hyphen (the `-$` alternative of `/^-|-$/g`). -/
def strip_trailing_hyphen : List Char → List Char
  | [] => []
  | [c] => if c == '-' then [] else [c]
  | c :: d :: t => c :: strip_trailing_hyphen (d :: t)

/-- `replace with pattern ^-|-$ by the empty string`: one leading and one trailing hyphen. -/
def strip_edge_hyphens (l : List Char) : List Char :=
  strip_trailing_hyphen (strip_leading_hyphen l)

/-- The replacement pipeline of `sanitize_branch_slug` before the
empty-fallback: lower-case, NFKD, collapse non-alphanumerics, collapse
hyphen runs, strip edge hyphens. -/
def sanitize_core (nfkd : List Char → List Char) (title : String) : List Char :=
  strip_edge_hyphens (collapse_hyphen_runs (collapse_non_alnum
    (nfkd (title.data.map Char.toLower))))

/-- `sanitize_branch_slug` from `git-automation.ts`: the pipeline result,
or the literal `update` when it is empty. -/
def sanitize_branch_slug (nfkd : List Char → List Char) (title : String) :
    String :=
  let replaced := sanitize_core nfkd title
  if replaced.isEmpty then "update" else ⟨replaced⟩

/-- `generate_target_branch` from `git-automation.ts`. -/
def generate_target_branch (nfkd : List Char → List Char)
    (issue_title issue_number : String) : String :=
  issue_number ++ "-" ++ sanitize_branch_slug nfkd issue_title

/-- No two adjacent hyphens. -/
def no_double_hyphen : List Char → Bool
  | [] => true
  | [_] => true
  | a :: b :: t => !(a == '-' && b == '-') && no_double_hyphen (b :: t)

/-- Heads that are not hyphens keep `no_double_hyphen` of the tail. -/
theorem no_double_hyphen_cons_of_ne {a : Char} {l : List Char}
    (ha : (a == '-') = false) :
    no_double_hyphen (a :: l) = no_double_hyphen l := by
  cases l with
  | nil => rfl
  | cons b t =>
    rw [no_double_hyphen, ha]
    simp

/-- Hyphen head followed by a non-hyphen head keeps `no_double_hyphen`. -/
theorem no_double_hyphen_cons_of_tail {a : Char} {l : List Char}
    (hl : ∀ c t', l = c :: t' → (c == '-') = false) :
    no_double_hyphen (a :: l) = no_double_hyphen l := by
  cases l with
  | nil => rfl
  | cons b t =>
    rw [no_double_hyphen, hl b t rfl]
    simp

/-- `no_double_hyphen` restricts to the tail. -/
theorem no_double_hyphen_of_cons {a : Char} {l : List Char}
    (h : no_double_hyphen (a :: l) = true) : no_double_hyphen l = true := by
  cases l with
  | nil => rfl
  | cons b t =>
    rw [no_double_hyphen, Bool.and_eq_true] at h
    exact h.2

/-- A `no_double_hyphen` list starting with a hyphen has a non-hyphen
second element (if any). -/
theorem no_double_hyphen_hyphen_head {l : List Char}
    (h : no_double_hyphen ('-' :: l) = true) :
    ∀ c t', l = c :: t' → (c == '-') = false := by
  intro c t' hl
  subst hl
  rw [no_double_hyphen, Bool.and_eq_true] at h
  have := h.1
  by_cases hc : (c == '-') = true
  · rw [hc] at this
    simp at this
  · simpa using hc

/-- Every character emitted by the non-alphanumeric collapse is a slug
character. -/
theorem mem_collapse_non_alnum_aux {c : Char} :
    ∀ (l : List Char) (b : Bool), c ∈ collapse_non_alnum_aux b l →
      is_slug_char c = true := by
  intro l
  induction l with
  | nil =>
    intro b h
    simp [collapse_non_alnum_aux] at h
  | cons a t ih =>
    intro b h
    rw [collapse_non_alnum_aux] at h
    by_cases ha : is_alnum_lower a = true
    · rw [if_pos ha] at h
      rcases List.mem_cons.mp h with h | h
      · subst h
        rw [is_slug_char, ha]
        simp
      · exact ih false h
    · rw [if_neg ha] at h
      cases b with
      | true =>
        rw [if_pos rfl] at h
        exact ih true h
      | false =>
        simp only [Bool.false_eq_true, if_false] at h
        rcases List.mem_cons.mp h with h | h
        · subst h
          rfl
        · exact ih true h

/-- The non-alphanumeric collapse never emits two adjacent hyphens, and in
run state its next emission is alphanumeric. -/
theorem collapse_non_alnum_aux_no_dd :
    ∀ l : List Char,
      (∀ b, no_double_hyphen (collapse_non_alnum_aux b l) = true) ∧
      (∀ c t', collapse_non_alnum_aux true l = c :: t' →
        is_alnum_lower c = true) := by
  intro l
  induction l with
  | nil =>
    refine ⟨fun b => rfl, ?_⟩
    intro c t' h
    exact absurd h (by simp [collapse_non_alnum_aux])
  | cons a t ih =>
    obtain ⟨ih1, ih2⟩ := ih
    by_cases ha : is_alnum_lower a = true
    · have hstep : ∀ b, collapse_non_alnum_aux b (a :: t) =
          a :: collapse_non_alnum_aux false t := by
        intro b
        rw [collapse_non_alnum_aux, if_pos ha]
      have hane : (a == '-') = false := by
        by_cases h2 : (a == '-') = true
        · have : a = '-' := by simpa using h2
          subst this
          exact absurd ha (by decide)
        · simpa using h2
      constructor
      · intro b
        rw [hstep b, no_double_hyphen_cons_of_ne hane]
        exact ih1 false
      · intro c t' h
        rw [hstep true] at h
        cases h
        exact ha
    · have ha' : is_alnum_lower a = false := by simpa using ha
      constructor
      · intro b
        cases b with
        | true =>
          rw [collapse_non_alnum_aux, ha']
          simp only [Bool.false_eq_true, if_false, if_true]
          exact ih1 true
        | false =>
          rw [collapse_non_alnum_aux, ha']
          simp only [Bool.false_eq_true, if_false]
          have hhd : ∀ c t', collapse_non_alnum_aux true t = c :: t' →
              (c == '-') = false := by
            intro c t' h
            have := ih2 c t' h
            by_cases h2 : (c == '-') = true
            · have hc : c = '-' := by simpa using h2
              subst hc
              exact absurd this (by decide)
            · simpa using h2
          rw [no_double_hyphen_cons_of_tail hhd]
          exact ih1 true
      · intro c t' h
        rw [collapse_non_alnum_aux, ha'] at h
        simp only [Bool.false_eq_true, if_false, if_true] at h
        exact ih2 c t' h

/-- The non-alphanumeric collapse output has no double hyphen. -/
theorem collapse_non_alnum_no_dd (l : List Char) :
    no_double_hyphen (collapse_non_alnum l) = true :=
  (collapse_non_alnum_aux_no_dd l).1 false

/-- The non-alphanumeric collapse fixes slug strings with no double
hyphen. -/
theorem collapse_non_alnum_aux_id :
    ∀ l : List Char, (∀ c ∈ l, is_slug_char c = true) →
      no_double_hyphen l = true →
      collapse_non_alnum_aux false l = l ∧
      ((∀ t', l ≠ '-' :: t') → collapse_non_alnum_aux true l = l) := by
  intro l
  induction l with
  | nil => exact fun _ _ => ⟨rfl, fun _ => rfl⟩
  | cons a t ih =>
    intro hslug hnd
    have hslugt : ∀ c ∈ t, is_slug_char c = true :=
      fun c hc => hslug c (by simp [hc])
    have hndt : no_double_hyphen t = true := no_double_hyphen_of_cons hnd
    obtain ⟨iht1, iht2⟩ := ih hslugt hndt
    have hsa := hslug a (by simp)
    rw [is_slug_char, Bool.or_eq_true] at hsa
    rcases hsa with hah | haa
    · have ha : a = '-' := by simpa using hah
      subst ha
      have halnum : is_alnum_lower '-' = false := by decide
      have htne : ∀ t', t ≠ '-' :: t' := by
        intro t' ht'
        have := no_double_hyphen_hyphen_head hnd '-' t' ht'
        simp at this
      constructor
      · rw [collapse_non_alnum_aux, halnum]
        simp only [Bool.false_eq_true, if_false]
        rw [iht2 htne]
      · intro hcontra
        exact absurd rfl (hcontra t)
    · constructor
      · rw [collapse_non_alnum_aux, if_pos haa, iht1]
      · intro _
        rw [collapse_non_alnum_aux, if_pos haa, iht1]

/-- The hyphen-run collapse fixes strings with no double hyphen. -/
theorem collapse_hyphen_runs_aux_id :
    ∀ l : List Char, no_double_hyphen l = true →
      collapse_hyphen_runs_aux false l = l ∧
      ((∀ t', l ≠ '-' :: t') → collapse_hyphen_runs_aux true l = l) := by
  intro l
  induction l with
  | nil => exact fun _ => ⟨rfl, fun _ => rfl⟩
  | cons a t ih =>
    intro hnd
    obtain ⟨iht1, iht2⟩ := ih (no_double_hyphen_of_cons hnd)
    by_cases hah : (a == '-') = true
    · have ha : a = '-' := by simpa using hah
      subst ha
      have htne : ∀ t', t ≠ '-' :: t' := by
        intro t' ht'
        have := no_double_hyphen_hyphen_head hnd '-' t' ht'
        simp at this
      constructor
      · rw [collapse_hyphen_runs_aux]
        simp only [beq_self_eq_true, if_true, Bool.false_eq_true, if_false]
        rw [iht2 htne]
      · intro hcontra
        exact absurd rfl (hcontra t)
    · have hane : (a == '-') = false := by simpa using hah
      constructor
      · rw [collapse_hyphen_runs_aux, hane]
        simp only [Bool.false_eq_true, if_false]
        rw [iht1]
      · intro _
        rw [collapse_hyphen_runs_aux, hane]
        simp only [Bool.false_eq_true, if_false]
        rw [iht1]

/-- The hyphen-run collapse is the identity on lists with no double
hyphen. -/
theorem collapse_hyphen_runs_id {l : List Char}
    (h : no_double_hyphen l = true) : collapse_hyphen_runs l = l :=
  (collapse_hyphen_runs_aux_id l h).1

/-- Membership in `strip_leading_hyphen` output. -/
theorem mem_strip_leading_hyphen {c : Char} {l : List Char}
    (h : c ∈ strip_leading_hyphen l) : c ∈ l := by
  cases l with
  | nil => exact h
  | cons a t =>
    by_cases ha : a = '-'
    · subst ha
      rw [strip_leading_hyphen] at h
      exact List.mem_cons_of_mem _ h
    · have : strip_leading_hyphen (a :: t) = a :: t := by
        rw [strip_leading_hyphen.eq_def]
        cases t <;> simp_all
      rw [this] at h
      exact h

/-- Membership in `strip_trailing_hyphen` output. -/
theorem mem_strip_trailing_hyphen {c : Char} :
    ∀ {l : List Char}, c ∈ strip_trailing_hyphen l → c ∈ l := by
  intro l
  induction l with
  | nil => exact fun h => h
  | cons a t ih =>
    intro h
    cases t with
    | nil =>
      rw [strip_trailing_hyphen] at h
      by_cases ha : (a == '-') = true
      · rw [if_pos ha] at h
        simp at h
      · rw [if_neg ha] at h
        exact h
    | cons b t2 =>
      rw [strip_trailing_hyphen] at h
      rcases List.mem_cons.mp h with h | h
      · simp [h]
      · exact List.mem_cons_of_mem _ (ih h)

/-- `strip_leading_hyphen` preserves `no_double_hyphen`. -/
theorem strip_leading_hyphen_no_dd {l : List Char}
    (h : no_double_hyphen l = true) :
    no_double_hyphen (strip_leading_hyphen l) = true := by
  cases l with
  | nil => exact h
  | cons a t =>
    by_cases ha : a = '-'
    · subst ha
      rw [strip_leading_hyphen]
      exact no_double_hyphen_of_cons h
    · have : strip_leading_hyphen (a :: t) = a :: t := by
        rw [strip_leading_hyphen.eq_def]
        cases t <;> simp_all
      rw [this]
      exact h

/-- The head structure of `strip_trailing_hyphen` on a cons. -/
theorem strip_trailing_hyphen_cons_shape (a : Char) (t : List Char) :
    strip_trailing_hyphen (a :: t) = [] ∨
      ∃ t', strip_trailing_hyphen (a :: t) = a :: t' := by
  cases t with
  | nil =>
    rw [strip_trailing_hyphen]
    by_cases ha : (a == '-') = true
    · rw [if_pos ha]
      exact Or.inl rfl
    · rw [if_neg ha]
      exact Or.inr ⟨[], rfl⟩
  | cons b t2 =>
    rw [strip_trailing_hyphen]
    exact Or.inr ⟨strip_trailing_hyphen (b :: t2), rfl⟩

/-- `strip_trailing_hyphen` on a singleton is empty only for a hyphen. -/
theorem strip_trailing_hyphen_eq_nil {a : Char} {t : List Char}
    (h : strip_trailing_hyphen (a :: t) = []) : a = '-' ∧ t = [] := by
  cases t with
  | nil =>
    rw [strip_trailing_hyphen] at h
    by_cases ha : (a == '-') = true
    · exact ⟨by simpa using ha, rfl⟩
    · rw [if_neg ha] at h
      exact absurd h (by simp)
  | cons b t2 =>
    rw [strip_trailing_hyphen] at h
    exact absurd h (by simp)

/-- `strip_trailing_hyphen` preserves `no_double_hyphen`. -/
theorem strip_trailing_hyphen_no_dd :
    ∀ {l : List Char}, no_double_hyphen l = true →
      no_double_hyphen (strip_trailing_hyphen l) = true := by
  intro l
  induction l with
  | nil => exact fun h => h
  | cons a t ih =>
    intro h
    cases t with
    | nil =>
      rw [strip_trailing_hyphen]
      by_cases ha : (a == '-') = true
      · rw [if_pos ha]
        rfl
      · rw [if_neg ha]
        rfl
    | cons b t2 =>
      have hbt := ih (no_double_hyphen_of_cons h)
      rw [strip_trailing_hyphen]
      rcases strip_trailing_hyphen_cons_shape b t2 with hsh | ⟨t', hsh⟩
      · rw [hsh]
        rfl
      · rw [hsh]
        rw [hsh] at hbt
        cases t' with
        | nil =>
          rw [no_double_hyphen, Bool.and_eq_true]
          rw [no_double_hyphen, Bool.and_eq_true] at h
          exact ⟨h.1, rfl⟩
        | cons d t3 =>
          rw [no_double_hyphen, Bool.and_eq_true]
          refine ⟨?_, hbt⟩
          rw [no_double_hyphen, Bool.and_eq_true] at h
          exact h.1

/-- After `strip_leading_hyphen` of a `no_double_hyphen` list, the head is
not a hyphen. -/
theorem strip_leading_hyphen_head {l : List Char}
    (h : no_double_hyphen l = true) :
    ∀ t', strip_leading_hyphen l ≠ '-' :: t' := by
  intro t' hcontra
  cases l with
  | nil => exact absurd hcontra (by simp [strip_leading_hyphen])
  | cons a t =>
    by_cases ha : a = '-'
    · subst ha
      rw [strip_leading_hyphen] at hcontra
      have := no_double_hyphen_hyphen_head h '-' t' hcontra
      simp at this
    · have heq : strip_leading_hyphen (a :: t) = a :: t := by
        rw [strip_leading_hyphen.eq_def]
        cases t <;> simp_all
      rw [heq] at hcontra
      cases hcontra
      exact ha rfl

/-- After `strip_trailing_hyphen` of a `no_double_hyphen` list, the last
element is not a hyphen. -/
theorem strip_trailing_hyphen_last :
    ∀ {l : List Char}, no_double_hyphen l = true →
      (strip_trailing_hyphen l).getLast? ≠ some '-' := by
  intro l
  induction l with
  | nil =>
    intro _ h
    exact absurd h (by simp [strip_trailing_hyphen])
  | cons a t ih =>
    intro h hcontra
    cases t with
    | nil =>
      rw [strip_trailing_hyphen] at hcontra
      by_cases ha : (a == '-') = true
      · rw [if_pos ha] at hcontra
        simp at hcontra
      · rw [if_neg ha] at hcontra
        have : a = '-' := by simpa using hcontra
        subst this
        simp at ha
    | cons b t2 =>
      rw [strip_trailing_hyphen] at hcontra
      rcases strip_trailing_hyphen_cons_shape b t2 with hsh | ⟨t', hsh⟩
      · rw [hsh] at hcontra
        obtain ⟨hb, ht2⟩ := strip_trailing_hyphen_eq_nil hsh
        subst hb
        have ha : a = '-' := by simpa using hcontra
        subst ha
        rw [no_double_hyphen, Bool.and_eq_true] at h
        simp at h
      · rw [hsh] at hcontra
        have hbt := ih (no_double_hyphen_of_cons h)
        rw [hsh] at hbt
        rw [List.getLast?_cons_cons] at hcontra
        exact hbt hcontra

/-- `strip_leading_hyphen` fixes lists that do not start with a hyphen. -/
theorem strip_leading_hyphen_id {l : List Char}
    (h : ∀ t', l ≠ '-' :: t') : strip_leading_hyphen l = l := by
  cases l with
  | nil => rfl
  | cons a t =>
    by_cases ha : a = '-'
    · subst ha
      exact absurd rfl (h t)
    · rw [strip_leading_hyphen.eq_def]
      cases t <;> simp_all

/-- `strip_trailing_hyphen` fixes lists that do not end with a hyphen. -/
theorem strip_trailing_hyphen_id :
    ∀ {l : List Char}, l.getLast? ≠ some '-' → strip_trailing_hyphen l = l := by
  intro l
  induction l with
  | nil => exact fun _ => rfl
  | cons a t ih =>
    intro h
    cases t with
    | nil =>
      rw [strip_trailing_hyphen]
      have ha : ¬ (a == '-') = true := by
        intro hc
        have : a = '-' := by simpa using hc
        subst this
        simp at h
      rw [if_neg ha]
    | cons b t2 =>
      rw [strip_trailing_hyphen]
      rw [List.getLast?_cons_cons] at h
      rw [ih h]

/-- Lower-casing fixes slug characters (all are ASCII outside `A`–`Z`). -/
theorem toLower_slug {c : Char} (h : is_slug_char c = true) :
    Char.toLower c = c := by
  rw [is_slug_char, Bool.or_eq_true] at h
  rcases h with h | h
  · have hc : c = '-' := by simpa using h
    subst hc
    decide
  · rw [is_alnum_lower, Bool.or_eq_true] at h
    rcases h with h | h
    · rw [Bool.and_eq_true] at h
      have h1 : 97 ≤ c.toNat := by simpa using h.1
      unfold Char.toLower
      have hcond : (c.toNat ≤ 90) = False := by
        simp
        omega
      simp [hcond]
    · rw [Bool.and_eq_true] at h
      have h2 : c.toNat ≤ 57 := by simpa using h.2
      unfold Char.toLower
      have hcond : (65 ≤ c.toNat) = False := by
        simp
        omega
      simp [hcond]

/-- Mapping `toLower` over a slug string is the identity. -/
theorem map_toLower_fixed {l : List Char}
    (h : ∀ c ∈ l, is_slug_char c = true) : l.map Char.toLower = l := by
  induction l with
  | nil => rfl
  | cons a t ih =>
    rw [List.map_cons, toLower_slug (h a (by simp)),
      ih (fun c hc => h c (by simp [hc]))]

/-- The slug pipeline's output is made of slug characters, has no double
hyphen, and neither starts nor ends with a hyphen. -/
theorem sanitize_core_props (nfkd : List Char → List Char) (t : String) :
    (∀ c ∈ sanitize_core nfkd t, is_slug_char c = true) ∧
    no_double_hyphen (sanitize_core nfkd t) = true ∧
    (∀ t', sanitize_core nfkd t ≠ '-' :: t') ∧
    (sanitize_core nfkd t).getLast? ≠ some '-' := by
  have hnd : no_double_hyphen
      (collapse_non_alnum (nfkd (t.data.map Char.toLower))) = true :=
    collapse_non_alnum_no_dd _
  have hcore : sanitize_core nfkd t =
      strip_edge_hyphens
        (collapse_non_alnum (nfkd (t.data.map Char.toLower))) := by
    rw [sanitize_core, collapse_hyphen_runs_id hnd]
  have hndl := strip_leading_hyphen_no_dd hnd
  refine ⟨?_, ?_, ?_, ?_⟩
  · intro c hc
    rw [hcore, strip_edge_hyphens] at hc
    exact mem_collapse_non_alnum_aux _ false
      (mem_strip_leading_hyphen (mem_strip_trailing_hyphen hc))
  · rw [hcore, strip_edge_hyphens]
    exact strip_trailing_hyphen_no_dd hndl
  · intro t' hcontra
    rw [hcore, strip_edge_hyphens] at hcontra
    cases hsl : strip_leading_hyphen
        (collapse_non_alnum (nfkd (t.data.map Char.toLower))) with
    | nil =>
      rw [hsl] at hcontra
      exact absurd hcontra (by simp [strip_trailing_hyphen])
    | cons a s =>
      rw [hsl] at hcontra
      rcases strip_trailing_hyphen_cons_shape a s with hsh | ⟨t'', hsh⟩
      · rw [hsh] at hcontra
        exact List.noConfusion hcontra
      · rw [hsh] at hcontra
        injection hcontra with h1 h2
        subst h1
        exact strip_leading_hyphen_head hnd s hsl
  · rw [hcore, strip_edge_hyphens]
    exact strip_trailing_hyphen_last hndl

/-- The slug is never empty and is made of slug characters (regardless of
what NFKD does). -/
theorem sanitize_branch_slug_props (nfkd : List Char → List Char)
    (t : String) :
    (sanitize_branch_slug nfkd t).data ≠ [] ∧
    (∀ c ∈ (sanitize_branch_slug nfkd t).data, is_slug_char c = true) := by
  by_cases h : (sanitize_core nfkd t).isEmpty = true
  · have hs : sanitize_branch_slug nfkd t = "update" := by
      simp [sanitize_branch_slug, h]
    rw [hs]
    exact ⟨by decide, by decide⟩
  · have hs : (sanitize_branch_slug nfkd t).data = sanitize_core nfkd t := by
      simp [sanitize_branch_slug, h]
    rw [hs]
    refine ⟨?_, (sanitize_core_props nfkd t).1⟩
    intro hcontra
    exact h (by rw [hcontra]; rfl)

/-- C8: slugification is idempotent — under the standard fact that NFKD
fixes ASCII slug strings, re-slugifying any slug returns it unchanged. -/
theorem c8_sanitize_branch_slug_idempotent (nfkd : List Char → List Char)
    (hnfkd : ∀ l, (∀ c ∈ l, is_slug_char c = true) → nfkd l = l)
    (s : String) :
    sanitize_branch_slug nfkd (sanitize_branch_slug nfkd s) =
      sanitize_branch_slug nfkd s := by
  have hfix : ∀ u : String, u.data ≠ [] →
      (∀ c ∈ u.data, is_slug_char c = true) →
      no_double_hyphen u.data = true →
      u.data.head? ≠ some '-' →
      u.data.getLast? ≠ some '-' →
      sanitize_branch_slug nfkd u = u := by
    intro u hne hslug hnd hhead hlast
    have hhead' : ∀ t', u.data ≠ '-' :: t' := by
      intro t' hcontra
      exact hhead (by rw [hcontra]; rfl)
    have h1 : nfkd (u.data.map Char.toLower) = u.data := by
      rw [map_toLower_fixed hslug]
      exact hnfkd _ hslug
    have h2 : collapse_non_alnum u.data = u.data := by
      rw [collapse_non_alnum]
      exact (collapse_non_alnum_aux_id u.data hslug hnd).1
    have hcoreu : sanitize_core nfkd u = u.data := by
      rw [sanitize_core, h1, h2, collapse_hyphen_runs_id hnd,
        strip_edge_hyphens, strip_leading_hyphen_id hhead',
        strip_trailing_hyphen_id hlast]
    simp only [sanitize_branch_slug, hcoreu]
    rw [if_neg (by simpa [List.isEmpty_iff] using hne)]
  by_cases hc : (sanitize_core nfkd s).isEmpty = true
  · have hs : sanitize_branch_slug nfkd s = "update" := by
      simp [sanitize_branch_slug, hc]
    rw [hs]
    exact hfix "update" (by decide) (by decide) (by decide) (by decide)
      (by decide)
  · have hdata : (sanitize_branch_slug nfkd s).data = sanitize_core nfkd s := by
      simp [sanitize_branch_slug, hc]
    have hprops := sanitize_core_props nfkd s
    have hne : (sanitize_branch_slug nfkd s).data ≠ [] := by
      rw [hdata]
      intro h
      exact hc (by rw [h]; rfl)
    refine hfix (sanitize_branch_slug nfkd s) hne ?_ ?_ ?_ ?_
    · rw [hdata]
      exact hprops.1
    · rw [hdata]
      exact hprops.2.1
    · rw [hdata]
      intro hcontra
      cases hcd : sanitize_core nfkd s with
      | nil => exact hc (by rw [hcd]; rfl)
      | cons a t =>
        rw [hcd] at hcontra
        have ha : a = '-' := by simpa using hcontra
        subst ha
        exact hprops.2.2.1 t hcd
    · rw [hdata]
      exact hprops.2.2.2

/-- The identity stand-in for NFKD used by the concrete witnesses (NFKD is
the identity on ASCII). -/
def nfkd_id : List Char → List Char := fun l => l

/-- Witness for `c8_sanitize_branch_slug_idempotent` on a concrete title. -/
theorem c8_sanitize_branch_slug_idempotent_witness :
    sanitize_branch_slug nfkd_id (sanitize_branch_slug nfkd_id
      "Fix Login Bug!") = sanitize_branch_slug nfkd_id "Fix Login Bug!" :=
  c8_sanitize_branch_slug_idempotent nfkd_id (fun _ _ => rfl) "Fix Login Bug!"

/-- Two strings with equal character data are equal. -/
theorem string_data_ext {s t : String} (h : s.data = t.data) : s = t := by
  cases s
  cases t
  cases h
  rfl

/-- Decidable matcher for the branch-name pattern `^\d+-[a-z0-9-]+$`:
the maximal leading digit run is non-empty, is followed by a hyphen, and
the remainder after that hyphen is a non-empty string of `[a-z0-9-]`
characters.  (Because the character after the maximal digit run of a
matching string is necessarily the hyphen, this is equivalent to the
existence of a split `digits ++ "-" ++ body` demanded by the regex.) -/
def is_valid_branch (s : String) : Bool :=
  match s.data.drop (s.data.takeWhile is_digit).length with
  | c :: body =>
    (c == '-') && !(s.data.takeWhile is_digit).isEmpty &&
      !body.isEmpty && body.all is_slug_char
  | [] => false

/-- C9: for every title and every non-empty all-digit issue number, the
canonical branch is non-empty and matches `^\d+-[a-z0-9-]+$`; when the
slug pipeline yields nothing for the title it equals the number followed
by `-update`. -/
theorem c9_generate_target_branch_shape (nfkd : List Char → List Char)
    (t n : String) (hne : n.data ≠ [])
    (hdig : ∀ c ∈ n.data, is_digit c = true) :
    (generate_target_branch nfkd t n).data ≠ [] ∧
    is_valid_branch (generate_target_branch nfkd t n) = true ∧
    (sanitize_core nfkd t = [] →
      generate_target_branch nfkd t n = n ++ "-update") := by
  have hslug := sanitize_branch_slug_props nfkd t
  have hdata : (generate_target_branch nfkd t n).data =
      n.data ++ '-' :: (sanitize_branch_slug nfkd t).data := by
    rw [generate_target_branch, String.data_append, String.data_append,
      List.append_assoc]
    rfl
  have htake : (generate_target_branch nfkd t n).data.takeWhile is_digit
      = n.data := by
    rw [hdata]
    exact takeWhile_all_append _ hdig (by decide)
  refine ⟨?_, ?_, ?_⟩
  · rw [hdata]
    simp
  · rw [is_valid_branch, htake, hdata, List.drop_left]
    simp only [beq_self_eq_true, Bool.true_and, Bool.and_eq_true,
      Bool.not_eq_true', List.all_eq_true]
    refine ⟨⟨?_, ?_⟩, ?_⟩
    · simpa [List.isEmpty_iff] using hne
    · simpa [List.isEmpty_iff] using hslug.1
    · exact hslug.2
  · intro hcore
    have hsl : sanitize_branch_slug nfkd t = "update" := by
      simp [sanitize_branch_slug, hcore]
    rw [generate_target_branch, hsl]
    apply string_data_ext
    rw [String.data_append, String.data_append, List.append_assoc,
      String.data_append]
    rfl

/-- Witness for `c9_generate_target_branch_shape`: issue number `42`,
title `Fix bug`. -/
theorem c9_generate_target_branch_shape_witness :
    (generate_target_branch nfkd_id "Fix bug" "42").data ≠ [] ∧
    is_valid_branch (generate_target_branch nfkd_id "Fix bug" "42") = true ∧
    (sanitize_core nfkd_id "Fix bug" = [] →
      generate_target_branch nfkd_id "Fix bug" "42" = "42" ++ "-update") :=
  c9_generate_target_branch_shape nfkd_id "Fix bug" "42" (by decide)
    (by decide)
